import Mathlib

/-! Formal models of the rrg client-side file-finder: condition evaluation
(condition.rs), the hash and download terminal actions (hash.rs, download.rs,
action.rs), path-query parsing (task.rs) and path resolution (resolve.rs),
together with theorems checking the behaviour of the embedded code. Machine
integers are modelled as Nat with explicit wrapping where the source relies
on fixed-width arithmetic. -/

namespace Rrg

/-- Match mode of a content-match condition (request.rs MatchMode). -/
inductive MatchMode
  | firstHit
  | allHits
deriving DecidableEq, Repr

/-- The offset, length and data fields of the BufferReference that
condition.rs fills for each content match. -/
structure BufferRef where
  offset : Nat
  length : Nat
  data : List Nat
deriving DecidableEq, Repr

/-- Result of checking one condition (ConditionResult in condition.rs). -/
structure ConditionResult where
  ok : Bool
  matchRefs : List BufferRef
deriving DecidableEq, Repr

/-- Options of a ContentsRegexMatch condition (request.rs). The compiled
regex is embedded by its match enumerator: findIter returns the list of
(start, end) spans that regex find_iter would yield on a byte buffer. -/
structure ContentsRegexMatchOptions where
  findIter : List Nat → List (Nat × Nat)
  mode : MatchMode
  bytesBefore : Nat
  bytesAfter : Nat
  startOffset : Nat
  length : Nat

/-- Options of a ContentsLiteralMatch condition (request.rs). -/
structure ContentsLiteralMatchOptions where
  literal : List Nat
  mode : MatchMode
  bytesBefore : Nat
  bytesAfter : Nat
  startOffset : Nat
  length : Nat

/-- Behaviour of the file behind an entry when its content is read for a
content-match condition: opening can fail, the initial seek can fail, or the
bounded post-seek stream yields some bytes followed by end of file
(readErr = false) or by a read error (readErr = true). -/
inductive CondContent
  | openErr
  | seekErr
  | readable (bytes : List Nat) (readErr : Bool)

/-- The Condition enum of request.rs, as consumed by check_condition.
Times are nanoseconds since the epoch; flag masks are u32 values. -/
inductive Condition
  | minModificationTime (t : Nat)
  | maxModificationTime (t : Nat)
  | minAccessTime (t : Nat)
  | maxAccessTime (t : Nat)
  | minInodeChangeTime (t : Nat)
  | maxInodeChangeTime (t : Nat)
  | minSize (n : Nat)
  | maxSize (n : Nat)
  | extFlagsLinuxBitsSet (mask : Nat)
  | extFlagsLinuxBitsUnset (mask : Nat)
  | extFlagsOsxBitsSet (mask : Nat)
  | extFlagsOsxBitsUnset (mask : Nat)
  | contentsRegexMatch (cfg : ContentsRegexMatchOptions)
  | contentsLiteralMatch (cfg : ContentsLiteralMatchOptions)

/-- The slice of an fs::Entry that check_condition reads: the metadata
snapshot (size, io::Result valued timestamps, the unix ctime), the result of
fs::linux::flags on the entry path, and the content behaviour. -/
structure CondEntry where
  len : Nat
  modified : Except Unit Nat
  accessed : Except Unit Nat
  ctime : Int
  extFlags : Except Unit Nat
  content : CondContent

/-- Modulus of the 64-bit usize of the modelled target. -/
def usizeMod : Nat := 2 ^ 64

/-- Wrapping (release mode) subtraction on usize; in debug builds the same
expression panics on underflow. -/
def usizeSub (a b : Nat) : Nat := (a + (usizeMod - b % usizeMod)) % usizeMod

/-- Rust slice indexing chunk[s..e]: some slice when the range is valid,
none when the indexing panics. -/
def sliceRange (l : List Nat) (s e : Nat) : Option (List Nat) :=
  if s ≤ e ∧ e ≤ l.length then some ((l.drop s).take (e - s)) else none

/-- BYTES_PER_CHUNK of the ContentsRegexMatch branch of condition.rs. -/
def BYTES_PER_CHUNK : Nat := 10 * 1024 * 1024

/-- OVERLAP_BYTES of the ContentsRegexMatch branch of condition.rs. -/
def OVERLAP_BYTES : Nat := 1024 * 1024

/-- Configuration of the chunked reader (ChunksConfig). -/
structure ChunksConfig where
  bytesPerChunk : Nat
  overlapBytes : Nat

/-- Modelled from the spec: worker of the chunked reader of the missing
crate::action::finder::chunks module (spec section 4.6). Emits chunks of
bytesPerChunk bytes, each chunk after the first starting with the trailing
overlapBytes of its predecessor; stops at end of input without a final empty
chunk; a read error surfaces as a terminal error item once the available
bytes can no longer fill a chunk. -/
def chunkSeqGo (k o : Nat) : Nat → List Nat → Bool → List Nat →
    List (Except Unit (List Nat))
  | 0, _, _, _ => []
  | fuel + 1, rest, rerr, carry =>
    let want := k - carry.length
    if want ≤ rest.length ∧ 0 < want then
      let chunk := carry ++ rest.take want
      Except.ok chunk ::
        chunkSeqGo k o fuel (rest.drop want) rerr (chunk.drop (k - o))
    else
      if rerr then [Except.error ()]
      else if rest.isEmpty then []
      else [Except.ok (carry ++ rest)]

/-- Modelled from the spec: the chunked reader of the missing chunks module,
applied to the byte stream of a reader. -/
def chunks (cfg : ChunksConfig) (bytes : List Nat) (readErr : Bool) :
    List (Except Unit (List Nat)) :=
  chunkSeqGo cfg.bytesPerChunk cfg.overlapBytes (bytes.length + 1) bytes readErr []

/-- One match-reference recording step of the ContentsRegexMatch loop in
condition.rs: start is max(m.start() - bytes_before, 0) computed on usize
(the subtraction wraps, the max with 0 is the identity), end is clamped to
the chunk length, and the chunk is sliced. none models the Rust panic
(debug overflow of the subtraction, or the out-of-range slice in release). -/
def recordCtx (cfg : ContentsRegexMatchOptions) (chunk : List Nat)
    (offset : Nat) (m : Nat × Nat) : Option BufferRef :=
  let s := Nat.max (usizeSub m.1 cfg.bytesBefore) 0
  let e := Nat.min (m.2 + cfg.bytesAfter) chunk.length
  match sliceRange chunk s e with
  | none => none
  | some data => some ⟨offset + s, e - s, data⟩

/-- Outcome of scanning the regex hits of one chunk: a panic, an early
return in FirstHit mode, or the accumulated matches. -/
inductive ChunkScan
  | crashed
  | earlyRet (acc : List BufferRef)
  | done (acc : List BufferRef)

/-- The inner for-loop over regex find_iter hits of one chunk
(condition.rs, ContentsRegexMatch branch). -/
def scanChunkHits (cfg : ContentsRegexMatchOptions) (chunk : List Nat)
    (offset : Nat) : List (Nat × Nat) → List BufferRef → ChunkScan
  | [], acc => .done acc
  | m :: ms, acc =>
    match recordCtx cfg chunk offset m with
    | none => .crashed
    | some br =>
      if cfg.mode = .firstHit then .earlyRet (acc ++ [br])
      else scanChunkHits cfg chunk offset ms (acc ++ [br])

/-- The outer chunk loop of the ContentsRegexMatch branch: a chunk read
error returns unsatisfied with no matches, FirstHit mode returns on the
first hit, and the offset advances by BYTES_PER_CHUNK - OVERLAP_BYTES per
chunk. none models a panic inside the loop. -/
def regexMatchLoop (cfg : ContentsRegexMatchOptions) :
    List (Except Unit (List Nat)) → Nat → List BufferRef →
    Option ConditionResult
  | [], _, acc => some ⟨!acc.isEmpty, acc⟩
  | .error _ :: _, _, _ => some ⟨false, []⟩
  | .ok chunk :: rest, offset, acc =>
    match scanChunkHits cfg chunk offset (cfg.findIter chunk) acc with
    | .crashed => none
    | .earlyRet acc2 => some ⟨true, acc2⟩
    | .done acc2 =>
        regexMatchLoop cfg rest (offset + (BYTES_PER_CHUNK - OVERLAP_BYTES)) acc2

/-- time_from_nanos of condition.rs: UNIX_EPOCH.checked_add of a duration of
nanos nanoseconds; on the modelled unix target the addition fails only when
the second count overflows the i64 field of SystemTime. -/
def time_from_nanos (nanos : Nat) : Option Nat :=
  if nanos / 1000000000 ≤ 9223372036854775807 then some nanos else none

/-- The i64 to u64 cast applied to metadata.ctime() in condition.rs. -/
def u64OfInt (i : Int) : Nat := (i % (2 ^ 64 : Int)).toNat

/-- check_condition of condition.rs. Simple conditions whose data cannot be
read evaluate as met; content-match failures evaluate as not met. The result
is none exactly when the Rust code panics. -/
def check_condition (condition : Condition) (entry : CondEntry) :
    Option ConditionResult :=
  match condition with
  | .minModificationTime t =>
    match entry.modified with
    | .ok actual => some ⟨decide (t ≤ actual), []⟩
    | .error _ => some ⟨true, []⟩
  | .maxModificationTime t =>
    match entry.modified with
    | .ok actual => some ⟨decide (actual ≤ t), []⟩
    | .error _ => some ⟨true, []⟩
  | .minAccessTime t =>
    match entry.accessed with
    | .ok actual => some ⟨decide (t ≤ actual), []⟩
    | .error _ => some ⟨true, []⟩
  | .maxAccessTime t =>
    match entry.accessed with
    | .ok actual => some ⟨decide (actual ≤ t), []⟩
    | .error _ => some ⟨true, []⟩
  | .minInodeChangeTime t =>
    some ⟨(match time_from_nanos (u64OfInt entry.ctime) with
           | some actual => decide (t ≤ actual)
           | none => true), []⟩
  | .maxInodeChangeTime t =>
    some ⟨(match time_from_nanos (u64OfInt entry.ctime) with
           | some actual => decide (actual ≤ t)
           | none => true), []⟩
  | .minSize n => some ⟨decide (n ≤ entry.len), []⟩
  | .maxSize n => some ⟨decide (entry.len ≤ n), []⟩
  | .extFlagsLinuxBitsSet mask =>
    some ⟨(match entry.extFlags with
           | .ok flags => decide (flags &&& mask = flags)
           | .error _ => true), []⟩
  | .extFlagsLinuxBitsUnset mask =>
    some ⟨(match entry.extFlags with
           | .ok flags => decide (flags &&& mask = 0)
           | .error _ => true), []⟩
  | .extFlagsOsxBitsSet _ => some ⟨true, []⟩
  | .extFlagsOsxBitsUnset _ => some ⟨true, []⟩
  | .contentsRegexMatch cfg =>
    match entry.content with
    | .openErr => some ⟨false, []⟩
    | .seekErr => some ⟨false, []⟩
    | .readable bytes rerr =>
        regexMatchLoop cfg (chunks ⟨BYTES_PER_CHUNK, OVERLAP_BYTES⟩ bytes rerr) 0 []
  | .contentsLiteralMatch _ => some ⟨true, []⟩

/-- A condition entry with a given flags result and inert other fields. -/
def flagsEntry (fl : Except Unit Nat) : CondEntry :=
  ⟨0, .ok 0, .ok 0, 0, fl, .openErr⟩

/-- A condition entry whose modification time is unreadable. -/
def eModErr : CondEntry :=
  ⟨0, .error (), .ok 0, 0, .ok 0, .openErr⟩

/-- A condition entry whose file cannot be opened. -/
def eOpenErr : CondEntry :=
  ⟨0, .ok 0, .ok 0, 0, .ok 0, .openErr⟩

/-- A regex-match configuration whose regex matches nothing. -/
def cfgNoHit : ContentsRegexMatchOptions :=
  ⟨fun _ => [], .allHits, 0, 0, 0, 100⟩

/-- A regex-match configuration with one byte of leading context whose regex
matches the single byte 7 at the start of a buffer. -/
def cfgC5 : ContentsRegexMatchOptions :=
  ⟨fun chunk => if chunk = [7] then [(0, 1)] else [], .allHits, 1, 0, 0, 100⟩

/-- An entry whose readable content is the single byte 7. -/
def entryC5 : CondEntry :=
  ⟨1, .ok 0, .ok 0, 0, .ok 0, .readable [7] false⟩

/-- Oversized-file policy of the hash action (rrg_proto). -/
inductive HashOversizedFilePolicy
  | skipPolicy
  | hashTruncated
deriving DecidableEq, Repr

/-- HashActionOptions of request.rs. -/
structure HashActionOptions where
  max_size : Nat
  oversized_file_policy : HashOversizedFilePolicy
deriving DecidableEq, Repr

/-- The file behind a hash action: the metadata length, whether File::open
succeeds, and the outcome of io::copy into the hasher - Ok with the number
of bytes copied, or a mid-read error carrying the number of bytes already
fed to the hasher before the failure. -/
structure HashFile where
  len : Nat
  openOk : Bool
  copyResult : Except Nat Nat

/-- The observable part of the HashEntry that hash.rs builds: the digests
are functions of the hashed byte sequence, so the byte count num_bytes
stands for the state of the hasher. -/
structure HashEntryM where
  num_bytes : Nat
deriving DecidableEq, Repr

/-- Tail of hash in hash.rs after the oversize-policy check: open the file,
io::copy the first max_size bytes into the hasher; a short read (Ok with
fewer bytes than expected) returns None, but the Err branch of io::copy only
logs and falls through, so a result is still built from the bytes hashed so
far. -/
def hashAfterPolicy (entry : HashFile) (config : HashActionOptions) :
    Option HashEntryM :=
  if entry.openOk then
    match entry.copyResult with
    | .ok read_bytes =>
      if read_bytes ≠ Nat.min entry.len config.max_size then none
      else some ⟨read_bytes⟩
    | .error hashed_bytes => some ⟨hashed_bytes⟩
  else none

/-- hash of hash.rs. -/
def hash (entry : HashFile) (config : HashActionOptions) : Option HashEntryM :=
  match config.oversized_file_policy with
  | .skipPolicy =>
    if entry.len > config.max_size then none else hashAfterPolicy entry config
  | .hashTruncated => hashAfterPolicy entry config

/-- Oversized-file policy of the download action (rrg_proto). -/
inductive DownloadOversizedFilePolicy
  | skipPolicy
  | downloadTruncated
  | hashTruncated
deriving DecidableEq, Repr

/-- DownloadActionOptions of request.rs. -/
structure DownloadActionOptions where
  max_size : Nat
  oversized_file_policy : DownloadOversizedFilePolicy
  use_external_stores : Bool
  chunk_size : Nat
deriving DecidableEq, Repr

/-- The file behind a download action: the metadata length and the content
bytes, none when File::open fails. -/
structure DownloadFile where
  len : Nat
  content : Option (List Nat)

/-- Result enum of download.rs: skip with no further action, redirect to the
hash action, or a stream of chunk read results. -/
inductive DownloadResult
  | skipResult
  | hashRequest (config : HashActionOptions)
  | downloadData (items : List (Except Unit (List Nat)))

/-- The Chunks iterator of download.rs: accumulate bytes into ret and emit
it once its length reaches chunk_size; at end of input a nonempty remainder
is emitted and an empty one is not. A chunk_size of 0 is never reached by
the equality test after a push, so the whole input comes out as one chunk. -/
def chunksGo (k : Nat) : List Nat → List Nat → List (List Nat)
  | ret, [] => if ret.isEmpty then [] else [ret]
  | ret, b :: rest =>
    let ret2 := ret ++ [b]
    if ret2.length = k then ret2 :: chunksGo k [] rest
    else chunksGo k ret2 rest

/-- The chunks function of download.rs over a fully readable byte stream. -/
def chunksSplit (bytes : List Nat) (chunk_size : Nat) : List (List Nat) :=
  chunksGo chunk_size [] bytes

/-- Tail of download in download.rs after the oversize-policy check: open
the file (failure degrades to Skip) and stream the first max_size bytes in
chunks of chunk_size. -/
def downloadOpen (entry : DownloadFile) (config : DownloadActionOptions) :
    DownloadResult :=
  match entry.content with
  | none => .skipResult
  | some bytes =>
    .downloadData
      ((chunksSplit (bytes.take config.max_size) config.chunk_size).map Except.ok)

/-- download of download.rs. -/
def download (entry : DownloadFile) (config : DownloadActionOptions) :
    DownloadResult :=
  if entry.len > config.max_size then
    match config.oversized_file_policy with
    | .skipPolicy => .skipResult
    | .hashTruncated => .hashRequest ⟨config.max_size, .hashTruncated⟩
    | .downloadTruncated => downloadOpen entry config
  else downloadOpen entry config

/-- ChunkId of action.rs, with the SHA-256 digest modelled by the chunk
bytes themselves (an injective stand-in for the digest function). -/
structure ChunkIdM where
  digest : List Nat
  offset : Nat
  length : Nat
deriving DecidableEq, Repr

/-- DownloadEntry of action.rs (the chunk descriptor of the reply). -/
structure DownloadEntryM where
  chunk_ids : List ChunkIdM
  chunk_size : Nat
deriving DecidableEq, Repr

/-- Worker of the DownloadData branch of perform_action in action.rs:
fold the chunk stream into the descriptor, advancing the offset by each
chunk length; a chunk read error returns with no result (none). -/
def downloadLoopGo (chunk_size : Nat) :
    List (Except Unit (List Nat)) → Nat → List ChunkIdM →
    Option DownloadEntryM
  | [], _, acc => some ⟨acc, chunk_size⟩
  | .error _ :: _, _, _ => none
  | .ok data :: rest, offset, acc =>
    downloadLoopGo chunk_size rest (offset + data.length)
      (acc ++ [⟨data, offset, data.length⟩])

/-- The DownloadData branch of perform_action in action.rs. -/
def downloadLoop (chunk_size : Nat) (items : List (Except Unit (List Nat))) :
    Option DownloadEntryM :=
  downloadLoopGo chunk_size items 0 []

/-- The chunk identifiers that the download loop records for an error-free
chunk stream starting at a given offset. -/
def mkIds : List (List Nat) → Nat → List ChunkIdM
  | [], _ => []
  | c :: cs, offset => ⟨c, offset, c.length⟩ :: mkIds cs (offset + c.length)

/-- File type reported by a metadata snapshot. -/
inductive FileType
  | file
  | dir
  | symlink
deriving DecidableEq, Repr

/-- Model of a file-system tree: regular files, directories with named
children, and symbolic links whose targets are absolute component lists. -/
inductive FsNode
  | file
  | dir (children : List (String × FsNode))
  | symlink (target : List String)

/-- The file type of a node as seen by lstat (symlink metadata). -/
def FsNode.ftype : FsNode → FileType
  | .file => .file
  | .dir _ => .dir
  | .symlink _ => .symlink

/-- Path lookup in a file-system tree rooted at root. Symbolic links in
intermediate components are always followed; a link in the final component
is followed only when followLast is true (stat versus lstat). The fuel
bounds symlink traversal, as the kernel loop guard does; none models a
failed lookup. -/
def walk (root : FsNode) : Nat → FsNode → List String → Bool → Option FsNode
  | 0, _, _, _ => none
  | fuel + 1, cur, [], followLast =>
    match cur with
    | .symlink target =>
      if followLast then walk root fuel root target followLast else some cur
    | c => some c
  | fuel + 1, cur, comp :: rest, followLast =>
    match cur with
    | .symlink target => walk root fuel root (target ++ (comp :: rest)) followLast
    | .dir children =>
      match children.lookup comp with
      | some child => walk root fuel child rest followLast
      | none => none
    | .file => none

/-- stat of a path: full lookup following every symbolic link. -/
def statNode (fuel : Nat) (root : FsNode) (p : List String) : Option FsNode :=
  walk root fuel root p true

/-- A resolved entry as produced by the resolution engine: the path and the
file type of its metadata snapshot. -/
structure REntry where
  path : List String
  ftype : FileType
deriving DecidableEq, Repr

/-- Modelled from the spec: crate::fs::list_dir (the fs module is not under
src/). Per spec section 4.4 it lists the direct children of a directory;
each entry carries the child path and the child symlink metadata (the
is_dir documentation in resolve.rs records that Entry metadata is the
symlink metadata). none when the path does not resolve to a directory. -/
def list_dir (fuel : Nat) (root : FsNode) (p : List String) :
    Option (List REntry) :=
  match statNode fuel root p with
  | some (.dir children) =>
    some (children.map (fun c => ⟨p ++ [c.1], c.2.ftype⟩))
  | _ => none

/-- list_path of resolve.rs. In the source the branch for a non-directory
path constructs an iterator value without returning it, so a non-directory
always falls through to list_dir, whose failure yields an empty listing. -/
def list_path (fuel : Nat) (root : FsNode) (p : List String) : List REntry :=
  match statNode fuel root p with
  | none => []
  | some _ =>
    match list_dir fuel root p with
    | some entries => entries
    | none => []

/-- PathComponent of task.rs. The compiled glob regex is embedded as its
anchored matcher on one path segment. -/
inductive PathComponent
  | constant (path : List String)
  | glob (matcher : String → Bool)
  | recursiveScan (max_depth : Int)

/-- Task of task.rs. path_stem embeds the path_prefix field. -/
structure Task where
  path_stem : List String
  current_component : PathComponent
  remaining_components : List PathComponent

/-- Worker of fold_constant_components in task.rs: the optional first
argument is the pending constant run (the trailing constant of the source
accumulator vector), joined with each further adjacent constant. -/
def foldGo : Option (List String) → List PathComponent → List PathComponent
  | none, [] => []
  | some a, [] => [.constant a]
  | none, .constant b :: rest => foldGo (some b) rest
  | some a, .constant b :: rest => foldGo (some (a ++ b)) rest
  | none, c :: rest => c :: foldGo none rest
  | some a, c :: rest => .constant a :: c :: foldGo none rest

/-- fold_constant_components of task.rs: adjacent constants are joined. -/
def foldConstantComponents (components : List PathComponent) :
    List PathComponent :=
  foldGo none components

/-- The component scan loop of build_task_from_components in task.rs:
leading constants overwrite the path stem; the first non-constant component
becomes current with the rest remaining; a fully constant list degenerates
to a constant current component with an empty stem. -/
def buildTaskScan : List PathComponent → List String → Task
  | [], pfx => ⟨[], .constant pfx, []⟩
  | .constant c :: rest, _ => buildTaskScan rest c
  | comp :: rest, pfx => ⟨pfx, comp, rest⟩

/-- build_task_from_components of task.rs. -/
def buildTaskFromComponents (components : List PathComponent) : Task :=
  buildTaskScan (foldConstantComponents components) []

/-- Results of resolving one task (TaskResults in resolve.rs). -/
structure TaskResults where
  new_tasks : List Task
  outputs : List REntry

/-- resolve_constant_task of resolve.rs: the path exists check and the
metadata call both follow symbolic links; the emitted entry keeps the
requested (link) path with the followed metadata. -/
def resolve_constant_task (fuel : Nat) (root : FsNode) (p : List String) :
    TaskResults :=
  match statNode fuel root p with
  | none => ⟨[], []⟩
  | some node => ⟨[], [⟨p, node.ftype⟩]⟩

/-- last_component_matches of resolve.rs. -/
def last_component_matches (matcher : String → Bool) (p : List String) : Bool :=
  match p.getLast? with
  | some s => matcher s
  | none => false

/-- The child loop of resolve_glob_task in resolve.rs. -/
def globGo (matcher : String → Bool) (remaining : List PathComponent) :
    List REntry → TaskResults
  | [] => ⟨[], []⟩
  | e :: es =>
    let r := globGo matcher remaining es
    if last_component_matches matcher e.path then
      if remaining.isEmpty then ⟨r.new_tasks, e :: r.outputs⟩
      else ⟨buildTaskFromComponents (.constant e.path :: remaining) :: r.new_tasks,
            r.outputs⟩
    else r

/-- resolve_glob_task of resolve.rs. -/
def resolve_glob_task (fuel : Nat) (root : FsNode) (matcher : String → Bool)
    (pfx : List String) (remaining : List PathComponent) : TaskResults :=
  globGo matcher remaining (list_path fuel root pfx)

/-- is_dir of resolve.rs: a directory by the symlink metadata of the entry,
or, when follow_links is set, by the followed metadata of the path. -/
def is_dir (fuel : Nat) (root : FsNode) (e : REntry) (follow_links : Bool) :
    Bool :=
  if e.ftype = .dir then true
  else if follow_links then
    match statNode fuel root e.path with
    | some node => node.ftype = .dir
    | none => false
  else false

/-- The child loop of resolve_recursive_scan_task in resolve.rs: a
non-directory child is emitted only when no components remain; a directory
child gets a continuation of the remaining components rooted at the child,
plus, when max_depth exceeds 1, a recursive continuation of depth
max_depth - 1 rooted at the child. -/
def recScanGo (fuel : Nat) (root : FsNode) (max_depth : Int)
    (remaining : List PathComponent) (follow_links : Bool) :
    List REntry → TaskResults
  | [] => ⟨[], []⟩
  | e :: es =>
    let r := recScanGo fuel root max_depth remaining follow_links es
    if is_dir fuel root e follow_links then
      let subdir := buildTaskFromComponents (.constant e.path :: remaining)
      if max_depth > 1 then
        ⟨subdir ::
            buildTaskFromComponents
              (.constant e.path :: .recursiveScan (max_depth - 1) :: remaining) ::
            r.new_tasks,
          r.outputs⟩
      else ⟨subdir :: r.new_tasks, r.outputs⟩
    else
      if remaining.isEmpty then ⟨r.new_tasks, e :: r.outputs⟩ else r

/-- resolve_recursive_scan_task of resolve.rs. -/
def resolve_recursive_scan_task (fuel : Nat) (root : FsNode) (max_depth : Int)
    (pfx : List String) (remaining : List PathComponent)
    (follow_links : Bool) : TaskResults :=
  recScanGo fuel root max_depth remaining follow_links (list_path fuel root pfx)

/-- resolve_task of resolve.rs. -/
def resolve_task (fuel : Nat) (root : FsNode) (t : Task)
    (follow_links : Bool) : TaskResults :=
  match t.current_component with
  | .constant p => resolve_constant_task fuel root p
  | .glob m => resolve_glob_task fuel root m t.path_stem t.remaining_components
  | .recursiveScan d =>
    resolve_recursive_scan_task fuel root d t.path_stem
      t.remaining_components follow_links

/-- Worker of normalize in path.rs over a component stack. -/
def normalizeGo : List String → List String → List String
  | [], acc => acc.reverse
  | c :: rest, acc =>
    if c = "." then normalizeGo rest acc
    else if c = ".." then normalizeGo rest acc.tail
    else normalizeGo rest (c :: acc)

/-- normalize of path.rs on an absolute component list: inlines the . and ..
components, with .. at the root dropped. -/
def normalize (p : List String) : List String := normalizeGo p []

/-- normalize_path of resolve.rs applied to an emitted entry. -/
def normalizeEntry (e : REntry) : REntry := ⟨normalize e.path, e.ftype⟩

/-- The ResolvePath iterator of resolve.rs, run to exhaustion: a LIFO task
stack (head is the top), each popped task appending its new tasks so that
the last pushed is popped first, and each step buffering its outputs, which
the iterator then pops in reverse order. steps bounds the number of loop
iterations. -/
def runResolve (fuel : Nat) (root : FsNode) (follow_links : Bool) :
    Nat → List Task → List REntry
  | 0, _ => []
  | _, [] => []
  | steps + 1, t :: ts =>
    let r := resolve_task fuel root t follow_links
    (r.outputs.map normalizeEntry).reverse ++
      runResolve fuel root follow_links steps (r.new_tasks.reverse ++ ts)

/-- resolve_path of resolve.rs for an already parsed component list. -/
def resolve_query (fuel steps : Nat) (root : FsNode) (follow_links : Bool)
    (components : List PathComponent) : List REntry :=
  runResolve fuel root follow_links steps [buildTaskFromComponents components]



/-- The directory in whose scope a task resolves: the constant component
itself for a constant task, the path stem otherwise. -/
def taskRoot (t : Task) : List String :=
  match t.current_component with
  | .constant c => c
  | _ => t.path_stem

/-- The head of a folded component list tail is never a constant. -/
def headNotConst : List PathComponent → Prop
  | .constant _ :: _ => False
  | _ => True



/-- The recursive-scan depths carried by one component. -/
def compDepths : PathComponent → List Int
  | .recursiveScan d => [d]
  | _ => []

/-- The recursive-scan depths carried by a component list. -/
def depthsOf (cs : List PathComponent) : List Int :=
  (cs.map compDepths).flatten

/-- The recursive-scan depths carried by a task. -/
def taskDepths (t : Task) : List Int :=
  compDepths t.current_component ++ depthsOf t.remaining_components



def fsA : FsNode := .dir [("a", .dir [("f", .file)])]
def fsP : FsNode := .dir [("p", .dir [("suffix", .file)])]
def fsD : FsNode := .dir [("a", .dir [("b", .dir [("c", .dir [("d", .dir [])])])])]
def fsL : FsNode := .dir [("a", .dir [("file", .file)]), ("b", .dir [("link_to_a", .symlink ["a"])])]



/-- Parse errors of the finder error.rs that task.rs can raise. -/
inductive ParseError
  | invalidRecursiveComponent (s : String)
  | multipleRecursiveComponents (segments : List String)
deriving DecidableEq, Repr

/-- The suffix after the leftmost occurrence of two consecutive stars, the
position where the unanchored RECURSIVE_SCAN_MATCHER regex of task.rs
first matches. -/
def findStarStar : List Char → Option (List Char)
  | '*' :: '*' :: rest => some rest
  | _ :: rest => findStarStar rest
  | [] => none

/-- ASCII decimal digit test (the digits that i32 parsing accepts). -/
def isAsciiDigit (c : Char) : Bool := 48 ≤ c.toNat && c.toNat ≤ 57

/-- Numeric value of a digit run. -/
def parseDigits (cs : List Char) : Nat :=
  cs.foldl (fun a c => a * 10 + (c.toNat - 48)) 0

/-- Default recursive-scan depth of task.rs. -/
def DEFAULT_DEPTH : Int := 3

/-- Largest i32 value, the bound of the max_depth parse in task.rs. -/
def I32_MAX : Nat := 2147483647

/-- get_recursive_scan_component of task.rs. The unanchored source regex
(two stars, a named digit run, a dot-star remainder) matches at the
leftmost two consecutive stars, so text before them is skipped; the
remainder capture extends over the following non-newline characters (dot
does not cross a newline). A nonempty remainder, or a digit run exceeding
i32, is an InvalidRecursiveComponent error; digits give the depth, with
the default when absent. -/
def get_recursive_scan_component (s : String) :
    Except ParseError (Option PathComponent) :=
  match findStarStar s.data with
  | none => .ok none
  | some rest =>
    let digits := rest.takeWhile isAsciiDigit
    let remaining := (rest.dropWhile isAsciiDigit).takeWhile (fun c => c ≠ '\n')
    if !remaining.isEmpty then .error (.invalidRecursiveComponent s)
    else if digits.isEmpty then .ok (some (.recursiveScan DEFAULT_DEPTH))
    else if parseDigits digits ≤ I32_MAX then
      .ok (some (.recursiveScan (parseDigits digits)))
    else .error (.invalidRecursiveComponent s)

/-- True when a segment contains a bracket pair with at least one character
between the brackets and no newline inside (the unanchored dot-plus class
of the GLOB_MATCHER regex in task.rs). -/
def hasBracketPair : List Char → Bool
  | [] => false
  | '[' :: rest =>
    (((rest.takeWhile (fun c => c ≠ '\n')).drop 1).contains ']') ||
      hasBracketPair rest
  | _ :: rest => hasBracketPair rest

/-- GLOB_MATCHER of task.rs: a star, a question mark, or a bracket pair. -/
def isGlobSegment (cs : List Char) : Bool :=
  cs.contains '*' || cs.contains '?' || hasBracketPair cs

/-- Token of a compiled glob pattern. -/
inductive GlobTok
  | star
  | anyChar
  | charSet (neg : Bool) (set : List Char)
  | lit (c : Char)

mutual

/-- Modelled from the spec: lexer of the glob compiler of the missing
glob.rs (spec section 4.1). A bracket opens a character class, optionally
negated by an exclamation mark or a caret, closed by the next bracket; a
missing closing bracket is the malformed-class failure. -/
def globLex : List Char → Option (List GlobTok)
  | [] => some []
  | '*' :: rest => (globLex rest).map (.star :: ·)
  | '?' :: rest => (globLex rest).map (.anyChar :: ·)
  | '[' :: '!' :: rest => globLexSet true [] rest
  | '[' :: '^' :: rest => globLexSet true [] rest
  | '[' :: rest => globLexSet false [] rest
  | c :: rest => (globLex rest).map (.lit c :: ·)
termination_by cs => cs.length

/-- Modelled from the spec: the character-class state of the glob lexer. -/
def globLexSet (neg : Bool) (acc : List Char) : List Char →
    Option (List GlobTok)
  | [] => none
  | ']' :: rest => (globLex rest).map (.charSet neg acc.reverse :: ·)
  | c :: rest => globLexSet neg (c :: acc) rest
termination_by cs => cs.length

end

/-- Modelled from the spec: anchored matching of a compiled glob pattern
against a whole segment (spec section 4.1). -/
def globMatch : List GlobTok → List Char → Bool
  | [], [] => true
  | [], _ :: _ => false
  | .star :: ts, [] => globMatch ts []
  | .star :: ts, c :: cs => globMatch ts (c :: cs) || globMatch (.star :: ts) cs
  | .anyChar :: _, [] => false
  | .anyChar :: ts, _ :: cs => globMatch ts cs
  | .charSet _ _ :: _, [] => false
  | .charSet neg set :: ts, c :: cs =>
    (if neg then !(set.contains c) else set.contains c) && globMatch ts cs
  | .lit _ :: _, [] => false
  | .lit a :: ts, c :: cs => (a == c) && globMatch ts cs
termination_by ts cs => (cs.length, ts.length)

/-- Modelled from the spec: glob_to_regex of the missing glob.rs, returning
the anchored matcher of the compiled pattern. -/
def glob_to_regex (s : String) : Option (String → Bool) :=
  (globLex s.data).map (fun toks => fun t => globMatch toks t.data)

/-- get_glob_component of task.rs: a glob component for segments with glob
characters; a compile failure degrades to no glob component. -/
def get_glob_component (s : String) : Option PathComponent :=
  if isGlobSegment s.data then
    match glob_to_regex s with
    | some m => some (.glob m)
    | none => none
  else none

/-- get_path_component of task.rs: recursive-scan recognition first (its
errors propagate), then glob recognition, then a constant. -/
def get_path_component (s : String) : Except ParseError PathComponent :=
  match get_recursive_scan_component s with
  | .error e => .error e
  | .ok (some c) => .ok c
  | .ok none =>
    match get_glob_component s with
    | some g => .ok g
    | none => .ok (.constant [s])

/-- True for a recursive-scan component. -/
def isRecScan : PathComponent → Bool
  | .recursiveScan _ => true
  | _ => false

/-- build_task of task.rs over the segments of a path: parse every segment
(the first error aborts), reject more than one recursive-scan component,
then fold constants and build the task. -/
def build_task (segments : List String) : Except ParseError Task :=
  match segments.mapM get_path_component with
  | .error e => .error e
  | .ok comps =>
    if comps.countP isRecScan > 1 then
      .error (.multipleRecursiveComponents segments)
    else
      .ok (buildTaskFromComponents (foldConstantComponents comps))

/-- C4: the ExtFlagsLinuxBitsSet branch of check_condition tests
flags AND mask == flags (the flags are a subset of the mask) instead of
mask AND flags == mask: an entry with flags 3 fails the mask-1 condition
even though every mask bit is set, and an entry with flags 0 passes it even
though the mask bit is unset. The ExtFlagsLinuxBitsUnset branch behaves as
the claim states. -/
theorem c4_ext_flags_bits_set_reversed :
    check_condition (.extFlagsLinuxBitsSet 1) (flagsEntry (.ok 3)) = some ⟨false, []⟩
  ∧ 3 &&& 1 = 1
  ∧ check_condition (.extFlagsLinuxBitsSet 1) (flagsEntry (.ok 0)) = some ⟨true, []⟩
  ∧ check_condition (.extFlagsLinuxBitsUnset 1) (flagsEntry (.ok 2)) = some ⟨true, []⟩
  ∧ check_condition (.extFlagsLinuxBitsUnset 1) (flagsEntry (.ok 3)) = some ⟨false, []⟩ :=
  ⟨rfl, rfl, rfl, by decide, by decide⟩

/-- C5: recording a match reference can fail. For a match starting at chunk
offset 0 with bytes_before 1, the usize subtraction in the window start
wraps to 2 to the 64 minus 1 (in debug builds it panics outright), the
max-with-0 clamp is vacuous on an unsigned type, and the subsequent chunk
slice panics, so the whole ContentsRegexMatch evaluation crashes. -/
theorem c5_match_context_underflow :
    usizeSub 0 1 = 2 ^ 64 - 1
  ∧ recordCtx cfgC5 [7] 0 (0, 1) = none
  ∧ check_condition (.contentsRegexMatch cfgC5) entryC5 = none := by
  refine ⟨by decide, by decide, ?_⟩
  decide

/-- C7: missing-data policy of check_condition. An unreadable modification
or access time satisfies the corresponding time conditions, an unreadable
extended-flags value satisfies both flag conditions (fail-open); an open
failure, a seek failure, or a read failure before any content byte makes a
ContentsRegexMatch condition unsatisfied with zero match references
(fail-closed). -/
theorem c7_missing_data_policy (e : CondEntry) (t mask : Nat)
    (cfg : ContentsRegexMatchOptions) :
    (e.modified = .error () →
        check_condition (.minModificationTime t) e = some ⟨true, []⟩
      ∧ check_condition (.maxModificationTime t) e = some ⟨true, []⟩)
  ∧ (e.accessed = .error () →
        check_condition (.minAccessTime t) e = some ⟨true, []⟩
      ∧ check_condition (.maxAccessTime t) e = some ⟨true, []⟩)
  ∧ (e.extFlags = .error () →
        check_condition (.extFlagsLinuxBitsSet mask) e = some ⟨true, []⟩
      ∧ check_condition (.extFlagsLinuxBitsUnset mask) e = some ⟨true, []⟩)
  ∧ (e.content = .openErr →
        check_condition (.contentsRegexMatch cfg) e = some ⟨false, []⟩)
  ∧ (e.content = .seekErr →
        check_condition (.contentsRegexMatch cfg) e = some ⟨false, []⟩)
  ∧ (e.content = .readable [] true →
        check_condition (.contentsRegexMatch cfg) e = some ⟨false, []⟩) := by
  refine ⟨fun h => ⟨?_, ?_⟩, fun h => ⟨?_, ?_⟩, fun h => ⟨?_, ?_⟩,
          fun h => ?_, fun h => ?_, fun h => ?_⟩ <;>
    simp only [check_condition, h] <;> rfl

/-- C7 witness: the policy at concrete entries. -/
theorem c7_missing_data_policy_witness :
    check_condition (.minModificationTime 5) eModErr = some ⟨true, []⟩
  ∧ check_condition (.contentsRegexMatch cfgNoHit) eOpenErr = some ⟨false, []⟩ :=
  ⟨((c7_missing_data_policy eModErr 5 0 cfgNoHit).1 rfl).1,
   (c7_missing_data_policy eOpenErr 5 0 cfgNoHit).2.2.2.1 rfl⟩

/-- C10: a ContentsLiteralMatch condition always evaluates as satisfied with
zero match references, for every configuration and every entry (in
particular the result does not depend on the file content, which is never
read). -/
theorem c10_contents_literal_match_stub (cfg : ContentsLiteralMatchOptions)
    (entry : CondEntry) :
    check_condition (.contentsLiteralMatch cfg) entry = some ⟨true, []⟩ := rfl

theorem downloadLoopGo_ok (k : Nat) (cs : List (List Nat)) :
    ∀ (offset : Nat) (acc : List ChunkIdM),
      downloadLoopGo k (cs.map Except.ok) offset acc =
        some ⟨acc ++ mkIds cs offset, k⟩ := by
  induction cs with
  | nil => intro offset acc; simp [downloadLoopGo, mkIds]
  | cons c cs ih =>
    intro offset acc
    simp only [List.map_cons, downloadLoopGo, mkIds]
    rw [ih]
    simp

theorem mkIds_lengths :
    ∀ (cs : List (List Nat)) (offset : Nat),
      (mkIds cs offset).map ChunkIdM.length = cs.map List.length
  | [], _ => rfl
  | c :: cs, offset => by simp [mkIds, mkIds_lengths cs]

theorem mkIds_digests :
    ∀ (cs : List (List Nat)) (offset : Nat),
      (mkIds cs offset).map ChunkIdM.digest = cs
  | [], _ => rfl
  | c :: cs, offset => by simp [mkIds, mkIds_digests cs]

theorem chunksGo_join (k : Nat) :
    ∀ (bytes ret : List Nat), (chunksGo k ret bytes).flatten = ret ++ bytes
  | [], ret => by
    by_cases h : ret.isEmpty <;>
      simp_all [chunksGo, List.isEmpty_iff]
  | b :: rest, ret => by
    simp only [chunksGo]
    by_cases h : (ret ++ [b]).length = k
    · rw [if_pos h]
      simp [chunksGo_join k rest]
    · rw [if_neg h]
      simp [chunksGo_join k rest (ret ++ [b])]

theorem chunksSplit_join (bytes : List Nat) (k : Nat) :
    (chunksSplit bytes k).flatten = bytes := by
  simpa using chunksGo_join k bytes []

/-- C6: error handling of the hash and download terminal actions. A failed
File::open during hashing yields no result and a mid-stream chunk error
during download yields no descriptor, but a failing io::copy during hashing
still yields a hash result built from the partially hashed bytes - here a
10-byte file whose copy fails after 4 bytes still produces an entry with
num_bytes 4. -/
theorem c6_hash_midread_failure_still_replies :
    hash ⟨10, true, .error 4⟩ ⟨100, .skipPolicy⟩ = some ⟨4⟩
  ∧ hash ⟨10, false, .ok 0⟩ ⟨100, .skipPolicy⟩ = none
  ∧ downloadLoop 5 [.ok [1, 2, 3], .error ()] = none := by
  refine ⟨by decide, by decide, by decide⟩

/-- C9: oversized-file handling of the download action. For a file larger
than max_size: the skip policy yields no result; the hash-truncated policy
redirects to the hash action with the truncated policy and the same
max_size; the download-truncated policy streams exactly the first max_size
bytes, and the resulting descriptor has chunk lengths summing to max_size
with the recorded chunk digests reassembling those bytes. -/
theorem c9_download_truncation (entry : DownloadFile)
    (config : DownloadActionOptions) (bytes : List Nat)
    (hsize : entry.len > config.max_size)
    (hcontent : entry.content = some bytes)
    (hlen : bytes.length = entry.len) :
    (config.oversized_file_policy = .skipPolicy →
        download entry config = .skipResult)
  ∧ (config.oversized_file_policy = .hashTruncated →
        download entry config = .hashRequest ⟨config.max_size, .hashTruncated⟩)
  ∧ (config.oversized_file_policy = .downloadTruncated →
      ∃ items de,
          download entry config = .downloadData items
        ∧ downloadLoop config.chunk_size items = some de
        ∧ (de.chunk_ids.map ChunkIdM.length).sum = config.max_size
        ∧ (de.chunk_ids.map ChunkIdM.digest).flatten = bytes.take config.max_size) := by
  refine ⟨fun hp => ?_, fun hp => ?_, fun hp => ?_⟩
  · simp [download, hsize, hp]
  · simp [download, hsize, hp]
  · refine ⟨(chunksSplit (bytes.take config.max_size) config.chunk_size).map Except.ok,
      ⟨mkIds (chunksSplit (bytes.take config.max_size) config.chunk_size) 0,
        config.chunk_size⟩, ?_, ?_, ?_, ?_⟩
    · simp [download, hsize, hp, downloadOpen, hcontent]
    · simpa [downloadLoop] using
        downloadLoopGo_ok config.chunk_size
          (chunksSplit (bytes.take config.max_size) config.chunk_size) 0 []
    · rw [mkIds_lengths, ← List.length_flatten, chunksSplit_join,
        List.length_take]
      omega
    · rw [mkIds_digests, chunksSplit_join]

/-- C9 witness: the policy at a concrete oversized file. -/
theorem c9_download_truncation_witness :
    ∃ items de,
        download ⟨6, some [0, 1, 2, 3, 4, 5]⟩ ⟨5, .downloadTruncated, false, 3⟩ =
          .downloadData items
      ∧ downloadLoop 3 items = some de
      ∧ (de.chunk_ids.map ChunkIdM.length).sum = 5
      ∧ (de.chunk_ids.map ChunkIdM.digest).flatten = [0, 1, 2, 3, 4] :=
  (c9_download_truncation ⟨6, some [0, 1, 2, 3, 4, 5]⟩
    ⟨5, .downloadTruncated, false, 3⟩ [0, 1, 2, 3, 4, 5]
    (by decide) rfl rfl).2.2 rfl

theorem foldGo_some_shape :
    ∀ (cs : List PathComponent) (a : List String),
      ∃ ext r2, foldGo (some a) cs = .constant (a ++ ext) :: r2 ∧ headNotConst r2
  | [], a => ⟨[], [], by simp [foldGo], trivial⟩
  | .constant b :: cs, a => by
    obtain ⟨ext, r2, heq, hh⟩ := foldGo_some_shape cs (a ++ b)
    exact ⟨b ++ ext, r2, by simp [foldGo, heq, List.append_assoc], hh⟩
  | .glob m :: cs, a =>
    ⟨[], .glob m :: foldGo none cs, by simp [foldGo], trivial⟩
  | .recursiveScan d :: cs, a =>
    ⟨[], .recursiveScan d :: foldGo none cs, by simp [foldGo], trivial⟩

theorem taskRoot_build_constant_cons (c : List String)
    (rest : List PathComponent) :
    ∃ ext, taskRoot (buildTaskFromComponents (.constant c :: rest)) = c ++ ext := by
  obtain ⟨ext, r2, heq, hh⟩ := foldGo_some_shape rest c
  have h1 : buildTaskFromComponents (.constant c :: rest) =
      buildTaskScan (.constant (c ++ ext) :: r2) [] := by
    unfold buildTaskFromComponents foldConstantComponents
    rw [show foldGo none (.constant c :: rest) = foldGo (some c) rest from rfl, heq]
  rw [h1]
  cases r2 with
  | nil => exact ⟨ext, rfl⟩
  | cons x r3 =>
    cases x with
    | constant cc => exact absurd hh (by simp [headNotConst])
    | glob m => exact ⟨ext, rfl⟩
    | recursiveScan d => exact ⟨ext, rfl⟩

theorem list_path_mem_shape (fuel : Nat) (root : FsNode) (p : List String)
    (e : REntry) (h : e ∈ list_path fuel root p) :
    ∃ nm ft, e = ⟨p ++ [nm], ft⟩ := by
  unfold list_path at h
  cases hs : statNode fuel root p with
  | none => rw [hs] at h; simp at h
  | some node =>
    rw [hs] at h
    unfold list_dir at h
    rw [hs] at h
    cases node with
    | file => simp at h
    | symlink t => simp at h
    | dir children =>
      simp only [List.mem_map] at h
      obtain ⟨c, _, hc⟩ := h
      exact ⟨c.1, c.2.ftype, hc.symm⟩

theorem recScanGo_new_tasks_mem (fuel : Nat) (root : FsNode) (d : Int)
    (remaining : List PathComponent) (fl : Bool) :
    ∀ (es : List REntry) (t : Task),
      t ∈ (recScanGo fuel root d remaining fl es).new_tasks →
      ∃ e, e ∈ es ∧ is_dir fuel root e fl = true ∧
        (t = buildTaskFromComponents (.constant e.path :: remaining) ∨
         (1 < d ∧
          t = buildTaskFromComponents
                (.constant e.path :: .recursiveScan (d - 1) :: remaining)))
  | [], t, h => absurd h (by simp [recScanGo])
  | e :: es, t, h => by
    simp only [recScanGo] at h
    by_cases hdir : is_dir fuel root e fl
    · rw [if_pos hdir] at h
      by_cases hd : d > 1
      · rw [if_pos hd] at h
        simp only [List.mem_cons] at h
        rcases h with h | h | h
        · exact ⟨e, by simp, hdir, Or.inl h⟩
        · exact ⟨e, by simp, hdir, Or.inr ⟨hd, h⟩⟩
        · obtain ⟨e2, he2, hdir2, hc⟩ :=
            recScanGo_new_tasks_mem fuel root d remaining fl es t h
          exact ⟨e2, List.mem_cons_of_mem _ he2, hdir2, hc⟩
      · rw [if_neg hd] at h
        simp only [List.mem_cons] at h
        rcases h with h | h
        · exact ⟨e, by simp, hdir, Or.inl h⟩
        · obtain ⟨e2, he2, hdir2, hc⟩ :=
            recScanGo_new_tasks_mem fuel root d remaining fl es t h
          exact ⟨e2, List.mem_cons_of_mem _ he2, hdir2, hc⟩
    · rw [if_neg hdir] at h
      have h2 : t ∈ (recScanGo fuel root d remaining fl es).new_tasks := by
        by_cases hr : remaining.isEmpty <;> simp [hr] at h <;> exact h
      obtain ⟨e2, he2, hdir2, hc⟩ :=
        recScanGo_new_tasks_mem fuel root d remaining fl es t h2
      exact ⟨e2, List.mem_cons_of_mem _ he2, hdir2, hc⟩

theorem depthsOf_foldGo :
    ∀ (cs : List PathComponent),
      depthsOf (foldGo none cs) = depthsOf cs
      ∧ ∀ a, depthsOf (foldGo (some a) cs) = depthsOf cs
  | [] => ⟨rfl, fun a => by simp [foldGo, depthsOf, compDepths]⟩
  | .constant b :: cs => by
    obtain ⟨h1, h2⟩ := depthsOf_foldGo cs
    refine ⟨?_, fun a => ?_⟩
    · simp only [foldGo]
      rw [h2 b]
      simp [depthsOf, compDepths]
    · simp only [foldGo]
      rw [h2 (a ++ b)]
      simp [depthsOf, compDepths]
  | .glob m :: cs => by
    obtain ⟨h1, h2⟩ := depthsOf_foldGo cs
    refine ⟨?_, fun a => ?_⟩ <;>
      simp [foldGo, depthsOf, compDepths, h1] <;>
      simpa [depthsOf, compDepths] using h1
  | .recursiveScan d :: cs => by
    obtain ⟨h1, h2⟩ := depthsOf_foldGo cs
    constructor
    · simp only [foldGo]
      simp only [depthsOf, compDepths, List.map_cons, List.flatten_cons]
      rw [show ((foldGo none cs).map compDepths).flatten = depthsOf (foldGo none cs) from rfl, h1]
      rfl
    · intro a
      simp only [foldGo]
      simp only [depthsOf, compDepths, List.map_cons, List.flatten_cons]
      rw [show ((foldGo none cs).map compDepths).flatten = depthsOf (foldGo none cs) from rfl, h1]
      rfl

theorem taskDepths_buildTaskScan :
    ∀ (cs : List PathComponent) (pfx : List String),
      taskDepths (buildTaskScan cs pfx) = depthsOf cs
  | [], pfx => by simp [buildTaskScan, taskDepths, depthsOf, compDepths]
  | .constant c :: cs, pfx => by
    simp only [buildTaskScan]
    rw [taskDepths_buildTaskScan cs c]
    simp [depthsOf, compDepths]
  | .glob m :: cs, pfx => by
    simp [buildTaskScan, taskDepths, depthsOf, compDepths]
  | .recursiveScan d :: cs, pfx => by
    simp [buildTaskScan, taskDepths, depthsOf, compDepths]

theorem taskDepths_build (cs : List PathComponent) :
    taskDepths (buildTaskFromComponents cs) = depthsOf cs := by
  unfold buildTaskFromComponents foldConstantComponents
  rw [taskDepths_buildTaskScan]
  exact (depthsOf_foldGo cs).1

theorem c1_zero_levels_cex :
    resolve_query 20 20 fsA false [.constant ["a"], .recursiveScan 3] =
      [⟨["a", "f"], .file⟩]
  ∧ REntry.mk ["a"] .dir ∉
      resolve_query 20 20 fsA false [.constant ["a"], .recursiveScan 3]
  ∧ resolve_query 20 20 fsP false
      [.constant ["p"], .recursiveScan 3, .constant ["suffix"]] = []
  ∧ statNode 20 fsP ["p", "suffix"] = some .file :=
  ⟨by decide, by decide, by decide, rfl⟩

theorem c1_recursive_descent_one_level :
    (∀ (fuel : Nat) (root : FsNode) (d : Int) (pfx : List String)
        (remaining : List PathComponent) (fl : Bool) (t : Task),
        t ∈ (resolve_recursive_scan_task fuel root d pfx remaining fl).new_tasks →
        pfx.length < (taskRoot t).length)
  ∧ resolve_query 20 20 fsA false [.constant ["a"], .recursiveScan 3] =
      [⟨["a", "f"], .file⟩]
  ∧ resolve_query 20 20 fsP false
      [.constant ["p"], .recursiveScan 3, .constant ["suffix"]] = [] := by
  refine ⟨?_, by decide, by decide⟩
  intro fuel root d pfx remaining fl t h
  obtain ⟨e, he, hdir, hc⟩ :=
    recScanGo_new_tasks_mem fuel root d remaining fl (list_path fuel root pfx) t h
  obtain ⟨nm, ft, hshape⟩ := list_path_mem_shape fuel root pfx e he
  have hplen : e.path = pfx ++ [nm] := by rw [hshape]
  rcases hc with h1 | ⟨_, h1⟩
  · obtain ⟨ext, hroot⟩ := taskRoot_build_constant_cons e.path remaining
    rw [h1, hroot, hplen]
    simp [List.length_append]
  · obtain ⟨ext, hroot⟩ :=
      taskRoot_build_constant_cons e.path (.recursiveScan (d - 1) :: remaining)
    rw [h1, hroot, hplen]
    simp [List.length_append]

theorem c1_recursive_descent_one_level_witness :
    1 < (taskRoot ⟨[], .constant ["a", "b", "c"], []⟩).length :=
  c1_recursive_descent_one_level.1 20 fsD 3 ["a"] [.constant ["c"]] false
    ⟨[], .constant ["a", "b", "c"], []⟩ (List.Mem.head _)

theorem c2_depth_bound_cex :
    resolve_query 20 20 fsD false
      [.constant ["a"], .recursiveScan 1, .constant ["c"]] =
      [⟨["a", "b", "c"], .dir⟩]
  ∧ resolve_query 20 20 fsD false
      [.constant ["a"], .recursiveScan 1, .constant ["c"]] ≠ [] := by
  refine ⟨by decide, by decide⟩

theorem c2_depth_bound :
    resolve_query 20 20 fsD false
      [.constant ["a"], .recursiveScan 1, .constant ["c"]] =
      [⟨["a", "b", "c"], .dir⟩]
  ∧ resolve_query 20 20 fsD false
      [.constant ["a"], .recursiveScan 2, .constant ["c"]] =
      [⟨["a", "b", "c"], .dir⟩]
  ∧ resolve_query 20 20 fsD false
      [.constant ["a"], .recursiveScan 3, .constant ["c"]] =
      [⟨["a", "b", "c"], .dir⟩]
  ∧ (∀ (fuel : Nat) (root : FsNode) (d : Int) (pfx : List String)
        (remaining : List PathComponent) (fl : Bool) (t : Task),
        t ∈ (resolve_recursive_scan_task fuel root d pfx remaining fl).new_tasks →
        ∀ d2 ∈ taskDepths t,
          d2 ∈ depthsOf remaining ∨ (1 < d ∧ d2 = d - 1)) := by
  refine ⟨by decide, by decide, by decide, ?_⟩
  intro fuel root d pfx remaining fl t h d2 hd2
  obtain ⟨e, he, hdir, hc⟩ :=
    recScanGo_new_tasks_mem fuel root d remaining fl (list_path fuel root pfx) t h
  rcases hc with h1 | ⟨hgt, h1⟩
  · left
    rw [h1, taskDepths_build] at hd2
    simpa [depthsOf, compDepths] using hd2
  · rw [h1, taskDepths_build] at hd2
    simp only [depthsOf, compDepths, List.map_cons, List.flatten_cons,
      List.nil_append, List.singleton_append, List.mem_cons] at hd2
    rcases hd2 with hd2 | hd2
    · exact Or.inr ⟨hgt, hd2⟩
    · exact Or.inl (by simpa [depthsOf, compDepths] using hd2)

theorem c2_depth_bound_witness :
    (2 : Int) ∈ depthsOf [PathComponent.constant ["c"]] ∨
      (1 < (3 : Int) ∧ (2 : Int) = 3 - 1) :=
  c2_depth_bound.2.2.2 20 fsD 3 ["a"] [.constant ["c"]] false
    ⟨["a", "b"], .recursiveScan 2, [.constant ["c"]]⟩
    (List.Mem.tail _ (List.Mem.head _)) 2 (List.Mem.head _)

theorem c3_symlink_policy :
    resolve_query 20 20 fsL false [.constant ["b", "link_to_a"]] =
      [⟨["b", "link_to_a"], .dir⟩]
  ∧ resolve_query 20 20 fsL false [.constant ["b", "link_to_a", "file"]] =
      [⟨["b", "link_to_a", "file"], .file⟩]
  ∧ resolve_query 20 20 fsL false
      [.constant ["b"], .glob (fun _ => true), .constant ["file"]] =
      [⟨["b", "link_to_a", "file"], .file⟩]
  ∧ resolve_query 20 20 fsL false
      [.constant ["b", "link_to_a"], .glob (fun _ => true)] =
      [⟨["b", "link_to_a", "file"], .file⟩]
  ∧ resolve_query 20 20 fsL false [.constant ["b"], .recursiveScan 3] =
      [⟨["b", "link_to_a"], .symlink⟩]
  ∧ resolve_query 20 20 fsL true [.constant ["b"], .recursiveScan 3] =
      [⟨["b", "link_to_a", "file"], .file⟩, ⟨["b", "link_to_a"], .dir⟩]
  ∧ (∀ (fuel : Nat) (root : FsNode) (p : List String) (node : FsNode),
        statNode fuel root p = some node →
        resolve_constant_task fuel root p = ⟨[], [⟨p, node.ftype⟩]⟩)
  ∧ (∀ (fuel : Nat) (root : FsNode) (e : REntry),
        e.ftype = .symlink → is_dir fuel root e false = false)
  ∧ (∀ (fuel : Nat) (root : FsNode) (d : Int) (pfx : List String)
        (remaining : List PathComponent) (fl : Bool) (t : Task),
        t ∈ (resolve_recursive_scan_task fuel root d pfx remaining fl).new_tasks →
        ∃ e, e ∈ list_path fuel root pfx ∧ is_dir fuel root e fl = true ∧
          ∃ ext, taskRoot t = e.path ++ ext) := by
  refine ⟨rfl, rfl, rfl, rfl, rfl, rfl, ?_, ?_, ?_⟩
  · intro fuel root p node h
    simp [resolve_constant_task, h]
  · intro fuel root e h
    simp [is_dir, h]
  · intro fuel root d pfx remaining fl t h
    obtain ⟨e, he, hdir, hc⟩ :=
      recScanGo_new_tasks_mem fuel root d remaining fl (list_path fuel root pfx) t h
    rcases hc with h1 | ⟨_, h1⟩
    · obtain ⟨ext, hroot⟩ := taskRoot_build_constant_cons e.path remaining
      exact ⟨e, he, hdir, ext, by rw [h1, hroot]⟩
    · obtain ⟨ext, hroot⟩ :=
        taskRoot_build_constant_cons e.path (.recursiveScan (d - 1) :: remaining)
      exact ⟨e, he, hdir, ext, by rw [h1, hroot]⟩

theorem c3_symlink_policy_witness :
    is_dir 5 fsA ⟨["x"], .symlink⟩ false = false
  ∧ resolve_constant_task 20 fsL ["b", "link_to_a"] =
      ⟨[], [⟨["b", "link_to_a"], .dir⟩]⟩ :=
  ⟨c3_symlink_policy.2.2.2.2.2.2.2.1 5 fsA ⟨["x"], .symlink⟩ rfl,
   c3_symlink_policy.2.2.2.2.2.2.1 20 fsL ["b", "link_to_a"]
     (.dir [("file", .file)]) rfl⟩

theorem c8_whole_segment_cex :
    get_path_component "a**" = .ok (.recursiveScan 3)
  ∧ build_task ["a**"] = .ok ⟨[], .recursiveScan 3, []⟩ :=
  ⟨rfl, rfl⟩

theorem get_glob_component_shape (s : String) (g : PathComponent)
    (h : get_glob_component s = some g) : ∃ m, g = .glob m := by
  unfold get_glob_component at h
  by_cases hg : isGlobSegment s.data
  · rw [if_pos hg] at h
    cases hr : glob_to_regex s with
    | none => rw [hr] at h; exact absurd h (by simp)
    | some m => rw [hr] at h; exact ⟨m, by injection h with h2; exact h2.symm⟩
  · rw [if_neg hg] at h
    exact absurd h (by simp)

theorem c8_recursive_token_parsing :
    build_task ["**5asd"] = .error (.invalidRecursiveComponent "**5asd")
  ∧ build_task ["**", "asd", "**"] =
      .error (.multipleRecursiveComponents ["**", "asd", "**"])
  ∧ get_path_component "**" = .ok (.recursiveScan 3)
  ∧ get_path_component "**7" = .ok (.recursiveScan 7)
  ∧ get_path_component "a**" = .ok (.recursiveScan 3)
  ∧ get_path_component "a**x" = .error (.invalidRecursiveComponent "a**x")
  ∧ (∀ (s : String) (c : PathComponent),
        get_path_component s = .ok c → isRecScan c = true →
        (findStarStar s.data).isSome)
  ∧ (∀ (segments : List String) (comps : List PathComponent),
        segments.mapM get_path_component = .ok comps →
        1 < comps.countP isRecScan →
        build_task segments = .error (.multipleRecursiveComponents segments)) := by
  refine ⟨rfl, rfl, rfl, rfl, rfl, rfl, ?_, ?_⟩
  · intro s c h hrec
    cases hf : findStarStar s.data with
    | some r => simp
    | none =>
      exfalso
      have hrc : get_recursive_scan_component s = .ok none := by
        unfold get_recursive_scan_component
        rw [hf]
      unfold get_path_component at h
      rw [hrc] at h
      cases hg : get_glob_component s with
      | some g =>
        rw [hg] at h
        obtain ⟨m, hm⟩ := get_glob_component_shape s g hg
        injection h with h2
        rw [← h2, hm] at hrec
        simp [isRecScan] at hrec
      | none =>
        rw [hg] at h
        injection h with h2
        rw [← h2] at hrec
        simp [isRecScan] at hrec
  · intro segments comps hm hc
    simp only [build_task, hm]
    rw [if_pos hc]

theorem c8_recursive_token_parsing_witness :
    build_task ["**", "**"] = .error (.multipleRecursiveComponents ["**", "**"]) :=
  c8_recursive_token_parsing.2.2.2.2.2.2.2 ["**", "**"]
    [.recursiveScan 3, .recursiveScan 3] rfl (by decide)

end Rrg
